import Mathlib

/-!
Verification of the pithos file-sharing service (Rust sources under `src/`).

The development shallowly embeds the pieces of the program that the claims
are about:

* the framed-envelope codec of `src/model.rs` (`write_file` / `read_file` of
  `GoogleCloudStorageModel` and `LocalFilesystemModel`), with bytes as `Nat`
  (each `< 256`), byte streams as `List (List Nat)` (a list of chunks) and
  the `StreamReader::read_exact` suspend-and-accumulate discipline made
  explicit;
* the error taxonomies of `src/error.rs` (`PilviError`) and `src/errors.rs`
  (`PithosError`) together with their `status_code` maps and `From`
  conversions;
* the HTTP handlers of `src/main.rs` (`upload_handler`,
  `signed_upload_handler`, `signed_download_handler`) over explicit stores,
  with the signed-URL check of the `axum_signed_urls` dependency modelled
  from the spec (its source is not part of this repository);
* the extension grammar scanner of `src/file_extensions.rs`;
* the URL-issuing services of `src/service.rs`.
-/

/-! ## Bytes, big-endian integers, UTF-8 validity -/

/-- Big-endian byte encoding of `n` in `w` bytes, most significant first.
Embeds Rust `usize::to_be_bytes` / tokio `write_u64` (with `w = 8`). -/
def beBytes : Nat → Nat → List Nat
  | 0, _ => []
  | w + 1, n => beBytes w (n / 256) ++ [n % 256]

/-- Big-endian decoding, as in `u64::from_be_bytes`. -/
def beDecode (bs : List Nat) : Nat := bs.foldl (fun acc b => acc * 256 + b) 0

/-- Is `b` a UTF-8 continuation byte (`0x80 ..= 0xBF`)? -/
def utf8Cont (b : Nat) : Bool := 0x80 ≤ b && b ≤ 0xBF

/-- UTF-8 validity of a byte sequence, as checked by Rust
`String::from_utf8` (RFC 3629 table: no surrogates, no overlong forms,
maximum `U+10FFFF`). -/
def utf8Valid : List Nat → Bool
  | [] => true
  | b :: rest =>
    if b ≤ 0x7F then utf8Valid rest
    else if 0xC2 ≤ b && b ≤ 0xDF then
      match rest with
      | b2 :: rest2 => utf8Cont b2 && utf8Valid rest2
      | [] => false
    else if b == 0xE0 then
      match rest with
      | b2 :: b3 :: rest3 => (0xA0 ≤ b2 && b2 ≤ 0xBF) && utf8Cont b3 && utf8Valid rest3
      | _ => false
    else if (0xE1 ≤ b && b ≤ 0xEC) || (0xEE ≤ b && b ≤ 0xEF) then
      match rest with
      | b2 :: b3 :: rest3 => utf8Cont b2 && utf8Cont b3 && utf8Valid rest3
      | _ => false
    else if b == 0xED then
      match rest with
      | b2 :: b3 :: rest3 => (0x80 ≤ b2 && b2 ≤ 0x9F) && utf8Cont b3 && utf8Valid rest3
      | _ => false
    else if b == 0xF0 then
      match rest with
      | b2 :: b3 :: b4 :: rest4 =>
        (0x90 ≤ b2 && b2 ≤ 0xBF) && utf8Cont b3 && utf8Cont b4 && utf8Valid rest4
      | _ => false
    else if 0xF1 ≤ b && b ≤ 0xF3 then
      match rest with
      | b2 :: b3 :: b4 :: rest4 => utf8Cont b2 && utf8Cont b3 && utf8Cont b4 && utf8Valid rest4
      | _ => false
    else if b == 0xF4 then
      match rest with
      | b2 :: b3 :: b4 :: rest4 =>
        (0x80 ≤ b2 && b2 ≤ 0x8F) && utf8Cont b3 && utf8Cont b4 && utf8Valid rest4
      | _ => false
    else false

/-! ## Error taxonomy (`src/error.rs` and `src/errors.rs`) -/

/-- The `std::io::ErrorKind`s the embedded code distinguishes. -/
inductive IoErrorKind where
  | NotFound
  | UnexpectedEof
  | AlreadyExists
  | Other
deriving DecidableEq, Repr

/-- `CorruptionError` of `src/error.rs`. -/
inductive CorruptionError where
  | InvalidHeader
  | InvalidUri
  | InvalidFileName
deriving DecidableEq, Repr

/-- `PilviError` of `src/error.rs`; payloads are reduced to the error kind. -/
inductive PilviError where
  | FileSystemError (k : IoErrorKind)
  | NoSuchFileError (k : IoErrorKind)
  | FileCorruptedError (c : CorruptionError)
  | ContentReadError
deriving DecidableEq, Repr

/-- `PilviError::status_code` (`src/error.rs` lines 48-56). -/
def PilviError.status_code : PilviError → Nat
  | .FileSystemError _ => 500
  | .FileCorruptedError _ => 500
  | .ContentReadError => 400
  | .NoSuchFileError _ => 404

/-- `impl From<io::Error> for PilviError` (`src/error.rs` lines 83-90):
`NotFound` becomes the not-found kind, every other kind the
file-system kind. -/
def ioErrorToPilvi (k : IoErrorKind) : PilviError :=
  match k with
  | .NotFound => .NoSuchFileError k
  | _ => .FileSystemError k

/-- A `cloud_storage::Error`; the embedded code never inspects it. -/
inductive CloudError where
  | mk
deriving DecidableEq, Repr

/-- `impl From<cloud_storage::Error> for PilviError` (`src/error.rs` lines
111-115): every cloud error becomes `FileSystemError` with kind `Other`. -/
def cloudErrorToPilvi (_ : CloudError) : PilviError :=
  .FileSystemError .Other

/-- `PithosError` of `src/errors.rs`; boxed payloads are dropped, numeric
payloads kept. -/
inductive PithosError where
  | Access
  | TooLarge (given max : Nat)
  | Blocked
  | InvalidRange (start stop length : Nat)
  | ServerError
  | NoSuchFile
  | InvalidQuery
deriving DecidableEq, Repr

/-- `PithosError::status_code` (`src/errors.rs` lines 37-47). -/
def PithosError.status_code : PithosError → Nat
  | .TooLarge _ _ => 413
  | .Blocked => 403
  | .Access => 500
  | .ServerError => 500
  | .NoSuchFile => 404
  | .InvalidRange _ _ _ => 416
  | .InvalidQuery => 400

/-! ## The `read_exact` discipline over a chunked stream

`tokio_util::io::StreamReader::read_exact(n)` pulls chunks from the
underlying stream into an internal buffer until at least `n` bytes are
available, returns the first `n` and keeps the surplus buffered.
`readExact n buf chunks` returns `(taken, leftover, remainingChunks)`,
or `none` when the stream ends first (Rust: `ErrorKind::UnexpectedEof`). -/

def readExact (n : Nat) (buf : List Nat) (chunks : List (List Nat)) :
    Option (List Nat × List Nat × List (List Nat)) :=
  if n ≤ buf.length then some (buf.take n, buf.drop n, chunks)
  else
    match chunks with
    | [] => none
    | c :: cs => readExact n (buf ++ c) cs

/-- The content stream returned by `StreamReader::into_inner_with_chunk`
followed by `futures::stream::iter(buffer.map(Ok)).chain(inner)`
(`src/model.rs` lines 91-92): the buffered surplus chunk, when non-empty,
is replayed ahead of the untouched remainder of the stream. -/
def replayChunk (buf : List Nat) (rest : List (List Nat)) : List (List Nat) :=
  if buf.isEmpty then rest else buf :: rest

/-! ## The framing codec (`src/model.rs`) -/

namespace GoogleCloudStorageModel

/-- `GoogleCloudStorageModel::write_file` (`src/model.rs` lines 48-67), as
the chunk stream handed to `create_streamed`: one chunk holding
`file_name.len().to_be_bytes()`, one chunk holding the filename bytes, then
the content stream unchanged. -/
def write_stream (file_name : List Nat) (file_content : List (List Nat)) :
    List (List Nat) :=
  beBytes 8 file_name.length :: file_name :: file_content

/-- The total length passed to `create_streamed`
(`content_length.map(|l| l + file_name_bytes.len() as u64 + 8)`). -/
def write_total_length (file_name : List Nat) (content_length : Option Nat) :
    Option Nat :=
  content_length.map (fun l => l + file_name.length + 8)

/-- The header-decoding half of `GoogleCloudStorageModel::read_file`
(`src/model.rs` lines 69-94) applied to the chunked download stream:
`read_exact` 8 bytes, decode big-endian, `read_exact` that many filename
bytes, `String::from_utf8` them, and replay the over-read surplus at the
head of the returned content stream. Premature end of stream converts via
`From<io::Error>`; invalid UTF-8 via `From<FromUtf8Error>`. -/
def read_chunks (chunks : List (List Nat)) :
    Except PilviError (List Nat × List (List Nat)) :=
  match readExact 8 [] chunks with
  | none => .error (ioErrorToPilvi .UnexpectedEof)
  | some (lengthBytes, buf, rest) =>
    match readExact (beDecode lengthBytes) buf rest with
    | none => .error (ioErrorToPilvi .UnexpectedEof)
    | some (nameBytes, buf2, rest2) =>
      if utf8Valid nameBytes then .ok (nameBytes, replayChunk buf2 rest2)
      else .error (.FileCorruptedError .InvalidFileName)

/-- `GoogleCloudStorageModel::read_file` including the
`download_streamed(..).await?` step: a failing download converts through
`From<cloud_storage::Error>`; a successful one yields the chunk stream
that `read_chunks` decodes. -/
def read_file (download : Except CloudError (List (List Nat))) :
    Except PilviError (List Nat × List (List Nat)) :=
  match download with
  | .error e => .error (cloudErrorToPilvi e)
  | .ok chunks => read_chunks chunks

end GoogleCloudStorageModel

/-! ## Identifiers and the local storage directory -/

/-- Lowercase hex digit for `d < 16`, as produced by `uuid::Uuid::to_string`. -/
def hexDigit (d : Nat) : Char :=
  if d < 10 then Char.ofNat (48 + d) else Char.ofNat (87 + d)

/-- `len` lowercase hex digits of `n`, most significant first, zero padded. -/
def hexPad : Nat → Nat → List Char
  | 0, _ => []
  | l + 1, n => hexPad l (n / 16) ++ [hexDigit (n % 16)]

/-- The canonical text form of a 128-bit identifier:
`uuid::Uuid::to_string` hyphenated lowercase hex, groups of 8-4-4-4-12. -/
def uuidText (n : Nat) : List Char :=
  let d := hexPad 32 (n % 2 ^ 128)
  d.take 8 ++ '-' :: (d.drop 8).take 4 ++ '-' :: (d.drop 12).take 4
    ++ '-' :: (d.drop 16).take 4 ++ '-' :: d.drop 20

/-- Hex value of a digit character (inverse of `hexDigit` on its range). -/
def hexVal (c : Char) : Nat :=
  if c.toNat < 97 then c.toNat - 48 else c.toNat - 87

/-- Decode a hex digit string back to a number. -/
def hexDecode (l : List Char) : Nat := l.foldl (fun acc c => acc * 16 + hexVal c) 0

/-- Recover the identifier from its canonical text form (drop the hyphens,
read the 32 hex digits). -/
def uuidOfText (s : List Char) : Nat := hexDecode (s.filter (fun c => c ≠ '-'))

/-- The flat storage directory: a map from file name (the identifier's
canonical text form) to the stored byte sequence. -/
def Store : Type := List Char → Option (List Nat)

/-- The empty storage directory. -/
def Store.empty : Store := fun _ => none

/-- Creating a file named `k` with content `v` (overwriting as
`File::create` does). -/
def Store.insert (fs : Store) (k : List Char) (v : List Nat) : Store :=
  fun k' => if k' = k then some v else fs k'

namespace LocalFilesystemModel

/-- The byte sequence that `LocalFilesystemModel::write_file`
(`src/model.rs` lines 126-142) writes into the created file:
`write_u64(file_name.len())` (big-endian), `write_all(file_name)`, then a
loop appending each content chunk in arrival order. -/
def file_bytes (file_name : List Nat) (file_content : List (List Nat)) : List Nat :=
  file_content.foldl (fun f c => f ++ c) (beBytes 8 file_name.length ++ file_name)

/-- `LocalFilesystemModel::write_file`: creates `storage_directory/id` (the
identifier's canonical text form, one file in the flat directory) holding
`file_bytes`, and returns the fresh identifier. The random
`Uuid::new_v4()` draw is the explicit parameter `id`. -/
def write_file (fs : Store) (id : Nat) (file_name : List Nat)
    (file_content : List (List Nat)) : Store × Nat :=
  (fs.insert (uuidText id) (file_bytes file_name file_content), id)

/-- The sequential reads of `LocalFilesystemModel::read_file`
(`src/model.rs` lines 144-156) against the opened file's bytes:
`read_u64` (8 bytes, big-endian), `read_exact` of that many filename bytes,
`String::from_utf8`, content length `metadata().len() - 8 - length`, and
the rest of the file as the content stream. Premature end of file is an
`UnexpectedEof` `io::Error`, converted by `From<io::Error>`. -/
def read_bytes (file : List Nat) : Except PilviError (List Nat × Nat × List Nat) :=
  if 8 ≤ file.length then
    if beDecode (file.take 8) ≤ (file.drop 8).length then
      if utf8Valid ((file.drop 8).take (beDecode (file.take 8))) then
        .ok ((file.drop 8).take (beDecode (file.take 8)),
          file.length - 8 - beDecode (file.take 8),
          (file.drop 8).drop (beDecode (file.take 8)))
      else .error (.FileCorruptedError .InvalidFileName)
    else .error (ioErrorToPilvi .UnexpectedEof)
  else .error (ioErrorToPilvi .UnexpectedEof)

/-- `LocalFilesystemModel::read_file`: `File::open` of
`storage_directory/id` fails with a `NotFound` `io::Error` when no such
file exists (converted by `From<io::Error>`), otherwise the file's bytes
are decoded by the sequential reads of `read_bytes`. -/
def read_file (fs : Store) (id : Nat) : Except PilviError (List Nat × Nat × List Nat) :=
  match fs (uuidText id) with
  | none => .error (ioErrorToPilvi .NotFound)
  | some file => read_bytes file

end LocalFilesystemModel

/-- Is a byte sequence a well-formed Framed Envelope: at least 8 bytes, the
big-endian prefix `N` fits in the remainder, and the `N` filename bytes are
valid UTF-8? -/
def isFramedEnvelope (bytes : List Nat) : Bool :=
  8 ≤ bytes.length
    && beDecode (bytes.take 8) + 8 ≤ bytes.length
    && utf8Valid ((bytes.drop 8).take (beDecode (bytes.take 8)))

/-! ## URL-issuing services (`src/service.rs`) -/

/-- `UploadHandle` of `src/service.rs`. -/
structure UploadHandle where
  url : String
  uuid : Nat
deriving DecidableEq, Repr

/-- `DownloadHandle` of `src/service.rs`. -/
structure DownloadHandle where
  url : String
deriving DecidableEq, Repr

/-- `google_cloud_storage::sign::SignedURLMethod`. -/
inductive SignedURLMethod where
  | GET
  | PUT
deriving DecidableEq, Repr

/-- The fields of `SignedURLOptions` that `src/service.rs` sets. -/
structure SignedURLOptions where
  method : SignedURLMethod
  headers : List String
  expires : Nat
deriving DecidableEq, Repr

/-- `google_cloud_storage::sign::SignedURLError`; never inspected. -/
inductive SignedURLError where
  | mk
deriving DecidableEq, Repr

namespace GoogleCloudStorage

/-- `GoogleCloudStorage::request_upload_url` (`src/service.rs` lines
115-130). `signer` abstracts `self.client.signed_url(bucket, object,
None, None, options)`; its failure converts through
`From<SignedURLError>` into `PithosError::Access`. -/
def request_upload_url (signer : String → List Char → SignedURLOptions → Except SignedURLError String)
    (bucket : String) (uuid : Nat) (length : Nat) : Except PithosError UploadHandle :=
  match signer bucket (uuidText uuid)
      ⟨.PUT, ["Content-Length: " ++ toString length], 1800⟩ with
  | .error _ => .error .Access
  | .ok url => .ok ⟨url, uuid⟩

/-- `GoogleCloudStorage::request_download_url` (`src/service.rs` lines
132-143). The `type_hint` and `ext_hint` parameters are the ignored `_`
arguments of the Rust signature. -/
def request_download_url (signer : String → List Char → SignedURLOptions → Except SignedURLError String)
    (bucket : String) (type_hint : Option String) (ext_hint : Option (List Char))
    (file_identifier : Nat) : Except PithosError DownloadHandle :=
  match type_hint, ext_hint with
  | _, _ =>
    match signer bucket (uuidText file_identifier) ⟨.GET, [], 1800⟩ with
    | .error _ => .error .Access
    | .ok url => .ok ⟨url⟩

end GoogleCloudStorage

namespace LocalStorage

/-- `LocalStorage::request_upload_url` (`src/service.rs` lines 63-69);
`build` abstracts `axum_signed_urls::build`, failures map to
`PithosError::Access`. -/
def request_upload_url (build : List Char → List (String × String) → Except SignedURLError String)
    (upload_path : List Char) (uuid : Nat) : Except PithosError UploadHandle :=
  match build (upload_path ++ '/' :: uuidText uuid) [] with
  | .error _ => .error .Access
  | .ok url => .ok ⟨url, uuid⟩

end LocalStorage

/-! ## HTTP handlers (`src/main.rs`) -/

/-- `upload_handler` (`src/main.rs` lines 136-148): compare the declared
`X-File-Size` against `config.max_upload_size()`; reject with
`PithosError::TooLarge(file_size, max_upload_size)` when strictly larger,
otherwise delegate to `service.request_upload_url(file_size)` and wrap a
success as `(StatusCode::CREATED, handle)`. `service` abstracts the chosen
`Box<dyn Service>`. -/
def upload_handler (max_upload_size : Nat) (file_size : Nat)
    (service : Nat → Except PithosError UploadHandle) :
    Except PithosError (Nat × UploadHandle) :=
  if max_upload_size < file_size then .error (.TooLarge file_size max_upload_size)
  else
    match service file_size with
    | .error e => .error e
    | .ok handle => .ok (201, handle)

/-! ## The signed-URL gate

Modelled from the spec: the `axum_signed_urls` crate that implements the
`SignedUrl` extractor used at `src/main.rs` lines 175 and 210 is a
dependency, not part of this repository. Spec §4.5: `verify(request)`
recomputes the message authentication code from the request's path and
query parameters (excluding the signature itself) and the embedded expiry,
rejects if the recomputed code does not match (tamper) or if the current
time exceeds the expiry (staleness), and rejects silently-missing or
malformed signature parameters rather than treating them as allowed. -/

/-- A request to a signed endpoint: path, non-signature query parameters,
and the signature and expiry query parameters (`none` when missing or
malformed). -/
structure SignedRequest where
  path : List Char
  params : List (String × String)
  signature : Option String
  expiry : Option Nat

/-- Modelled from the spec: signature verification of the
`axum_signed_urls` `SignedUrl` extractor (spec §4.5). `mac` is the
deterministic message-authentication-code derivation over the canonical
path, the remaining query parameters and the expiry timestamp, keyed by
the process-wide secret. -/
def verifySigned (mac : List Char → List (String × String) → Nat → String)
    (now : Nat) (req : SignedRequest) : Bool :=
  match req.signature, req.expiry with
  | some sig, some expiry => sig == mac req.path req.params expiry && now ≤ expiry
  | _, _ => false

/-- The outcome of a handler guarded by the `SignedUrl` extractor: either
the extractor rejected the request (the handler body never ran), or the
body ran and produced a value. -/
inductive SignedOutcome (α : Type) where
  | rejected
  | handled (a : α)
deriving DecidableEq, Repr

/-- `signed_upload_handler` (`src/main.rs` lines 173-198) guarded by its
`SignedUrl` extractor argument: when the signature verifies, create
`local_storage_path/uuid` and `copy_buf` the raw request body into it
(the chunks concatenated, nothing added or reframed), answering
`StatusCode::ACCEPTED`; otherwise the body never runs and the store is
untouched. -/
def signed_upload_handler (mac : List Char → List (String × String) → Nat → String)
    (now : Nat) (req : SignedRequest) (fs : Store) (uuid : Nat)
    (body : List (List Nat)) : SignedOutcome (Except PithosError Nat) × Store :=
  if verifySigned mac now req then
    (.handled (.ok 202), fs.insert (uuidText uuid) body.flatten)
  else (.rejected, fs)

/-- The error mapping of `File::open` in `signed_download_handler`
(`src/main.rs` lines 218-222): `ErrorKind::NotFound` becomes
`PithosError::NoSuchFile`, every other kind `PithosError::ServerError`. -/
def signed_download_open_err (k : IoErrorKind) : PithosError :=
  match k with
  | .NotFound => .NoSuchFile
  | _ => .ServerError

/-- `signed_download_handler` (`src/main.rs` lines 208-245) guarded by its
`SignedUrl` extractor argument: when the signature verifies, open
`local_storage_path/uuid` (`open` abstracts the filesystem, erring with an
`io::ErrorKind`) and stream the whole file back with `StatusCode::OK`;
otherwise the body never runs and no file is opened. -/
def signed_download_handler (mac : List Char → List (String × String) → Nat → String)
    (now : Nat) (req : SignedRequest)
    (open_file : List Char → Except IoErrorKind (List Nat)) (uuid : Nat) :
    SignedOutcome (Except PithosError (Nat × List Nat)) :=
  if verifySigned mac now req then
    .handled (match open_file (uuidText uuid) with
      | .error k => .error (signed_download_open_err k)
      | .ok file => .ok (200, file))
  else .rejected

/-! ## Extension validator (`src/file_extensions.rs`) -/

/-- `ExtensionError` of `src/file_extensions.rs`. -/
inductive ExtensionError where
  | NotAlphanumeric (c : Char)
  | DoesNotStartWithDot (c : Char)
  | ConsecutiveDots
  | EndsWithDot
  | EmptyExtension
  | TooLong (n : Nat)
deriving DecidableEq, Repr

/-- `MAX_EXTENSION_LENGTH`. -/
def MAX_EXTENSION_LENGTH : Nat := 32

/-- UTF-8 byte length of one character, as contributes to Rust
`str::len()`. -/
def charUtf8Len (c : Char) : Nat :=
  if c.toNat < 0x80 then 1
  else if c.toNat < 0x800 then 2
  else if c.toNat < 0x10000 then 3
  else 4

/-- Rust `str::len()`: the UTF-8 byte length of the string. -/
def strByteLen (s : List Char) : Nat := (s.map charUtf8Len).sum

/-- The scanner states of `FromStr for FileExt`. -/
inductive ExtState where
  | WantDot
  | WantLetters
  | WantLettersOrDot
deriving DecidableEq, Repr

/-- The character loop of `FromStr for FileExt`
(`src/file_extensions.rs` lines 50-81), parameterized by the
`char::is_alphanumeric` predicate (Unicode tables live in the Rust
standard library; on ASCII it coincides with `Char.isAlphanum`). -/
def extScan (isAlnum : Char → Bool) : ExtState → List Char → Except ExtensionError ExtState
  | st, [] => .ok st
  | .WantDot, c :: rest =>
    if c ≠ '.' then .error (.DoesNotStartWithDot c)
    else extScan isAlnum .WantLetters rest
  | .WantLetters, c :: rest =>
    if c = '.' then .error .ConsecutiveDots
    else if ¬ isAlnum c then .error (.NotAlphanumeric c)
    else extScan isAlnum .WantLettersOrDot rest
  | .WantLettersOrDot, c :: rest =>
    if c = '.' then extScan isAlnum .WantLetters rest
    else if ¬ isAlnum c then .error (.NotAlphanumeric c)
    else extScan isAlnum .WantLettersOrDot rest

/-- `FromStr for FileExt` (`src/file_extensions.rs` lines 36-89): reject
byte lengths over `MAX_EXTENSION_LENGTH` as `TooLong`, run the scanner
from `WantDot`, and accept only when it ends in `WantLettersOrDot`. -/
def fileExtFromStr (isAlnum : Char → Bool) (value : List Char) :
    Except ExtensionError (List Char) :=
  if MAX_EXTENSION_LENGTH < strByteLen value then .error (.TooLong (strByteLen value))
  else
    match extScan isAlnum .WantDot value with
    | .error e => .error e
    | .ok .WantDot => .error .EmptyExtension
    | .ok .WantLetters => .error .EndsWithDot
    | .ok .WantLettersOrDot => .ok value

/-- Rust `char::is_alphanumeric` restricted to the ASCII range, where it
coincides with `Char.isAlphanum`. -/
def rustIsAlphanumAscii (c : Char) : Bool := c.isAlphanum

/-- The extension grammar in the spec's words: one or more groups of `'.'`
followed by one or more alphanumeric characters. -/
def SatisfiesGrammar (isAlnum : Char → Bool) (v : List Char) : Prop :=
  ∃ gs : List (List Char), gs ≠ [] ∧ (∀ g ∈ gs, g ≠ [] ∧ ∀ c ∈ g, isAlnum c = true)
    ∧ v = (gs.map (fun g => '.' :: g)).flatten

/-- Rust `char::is_alphanumeric` restricted to ASCII plus the letter `é`
(`U+00E9`, Unicode Alphabetic and hence alphanumeric in Rust, two UTF-8
bytes). -/
def rustIsAlphanumLatin (c : Char) : Bool := c.isAlphanum || c == 'é'

deriving instance DecidableEq for Except

/-! # Theorems -/

/-! ## Big-endian encoding -/

theorem beBytes_length (w n : Nat) : (beBytes w n).length = w := by
  induction w generalizing n with
  | zero => rfl
  | succ w ih => simp [beBytes, ih]

theorem beDecode_foldl (w : Nat) : ∀ (n a : Nat),
    (beBytes w n).foldl (fun acc b => acc * 256 + b) a = a * 256 ^ w + n % 256 ^ w := by
  induction w with
  | zero => intro n a; simp [beBytes, Nat.mod_one]
  | succ w ih =>
    intro n a
    have h : n % 256 ^ (w + 1) = n % 256 + 256 * (n / 256 % 256 ^ w) := by
      rw [pow_succ, mul_comm]
      exact Nat.mod_mul
    simp only [beBytes, List.foldl_append, ih (n / 256) a, List.foldl_cons, List.foldl_nil]
    rw [h, pow_succ]
    ring

theorem beDecode_beBytes (w n : Nat) : beDecode (beBytes w n) = n % 256 ^ w := by
  have := beDecode_foldl w n 0
  simpa [beDecode] using this

/-! ## `readExact` over chunked streams -/

theorem take_append_le {α : Type _} (n : Nat) (l₁ l₂ : List α) (h : n ≤ l₁.length) :
    (l₁ ++ l₂).take n = l₁.take n := by
  induction l₁ generalizing n with
  | nil => simp_all
  | cons a t ih =>
    cases n with
    | zero => simp
    | succ m =>
      simp only [List.cons_append, List.take_succ_cons]
      rw [ih m (by simpa using h)]

theorem drop_append_le {α : Type _} (n : Nat) (l₁ l₂ : List α) (h : n ≤ l₁.length) :
    (l₁ ++ l₂).drop n = l₁.drop n ++ l₂ := by
  induction l₁ generalizing n with
  | nil => simp_all
  | cons a t ih =>
    cases n with
    | zero => simp
    | succ m =>
      simp only [List.cons_append, List.drop_succ_cons]
      rw [ih m (by simpa using h)]

theorem readExact_some (n : Nat) : ∀ (chunks : List (List Nat)) (buf : List Nat),
    n ≤ buf.length + chunks.flatten.length →
    ∃ l r, readExact n buf chunks = some ((buf ++ chunks.flatten).take n, l, r)
      ∧ l ++ r.flatten = (buf ++ chunks.flatten).drop n := by
  intro chunks
  induction chunks with
  | nil =>
    intro buf h
    simp only [List.flatten_nil, List.length_nil, Nat.add_zero] at h
    refine ⟨buf.drop n, [], ?_, by simp⟩
    rw [readExact, if_pos h]
    simp
  | cons c cs ih =>
    intro buf h
    rw [readExact]
    by_cases hb : n ≤ buf.length
    · rw [if_pos hb]
      exact ⟨buf.drop n, c :: cs,
        by rw [take_append_le n buf _ hb],
        by rw [drop_append_le n buf _ hb]⟩
    · rw [if_neg hb]
      obtain ⟨l, r, heq, hrest⟩ := ih (buf ++ c)
        (by
          simp only [List.flatten_cons, List.length_append] at h ⊢
          omega)
      refine ⟨l, r, ?_, ?_⟩
      · rw [heq]; simp
      · rw [hrest]; simp

theorem readExact_none (n : Nat) : ∀ (chunks : List (List Nat)) (buf : List Nat),
    buf.length + chunks.flatten.length < n → readExact n buf chunks = none := by
  intro chunks
  induction chunks with
  | nil =>
    intro buf h
    simp only [List.flatten_nil, List.length_nil, Nat.add_zero] at h
    rw [readExact, if_neg (by omega)]
  | cons c cs ih =>
    intro buf h
    simp only [List.flatten_cons, List.length_append] at h
    rw [readExact, if_neg (by omega)]
    exact ih (buf ++ c) (by simp only [List.length_append]; omega)

theorem replayChunk_flatten (buf : List Nat) (rest : List (List Nat)) :
    (replayChunk buf rest).flatten = buf ++ rest.flatten := by
  cases buf with
  | nil => simp [replayChunk]
  | cons a t => simp [replayChunk]

/-! ## Decoding a well-formed envelope, however it is chunked -/

theorem flatten_foldl_append {α : Type _} : ∀ (l : List (List α)) (init : List α),
    l.foldl (fun f c => f ++ c) init = init ++ l.flatten
  | [], init => by simp
  | c :: cs, init => by
    simp only [List.foldl_cons, List.flatten_cons, flatten_foldl_append cs (init ++ c),
      List.append_assoc]

theorem file_bytes_eq (name : List Nat) (content : List (List Nat)) :
    LocalFilesystemModel.file_bytes name content
      = beBytes 8 name.length ++ name ++ content.flatten := by
  unfold LocalFilesystemModel.file_bytes
  rw [flatten_foldl_append, List.append_assoc]

theorem read_chunks_of_envelope (name content : List Nat) (cs : List (List Nat))
    (hlen : name.length < 2 ^ 64)
    (hcs : cs.flatten = beBytes 8 name.length ++ name ++ content) :
    ∃ out, out.flatten = content ∧
      GoogleCloudStorageModel.read_chunks cs =
        (if utf8Valid name then .ok (name, out)
         else .error (.FileCorruptedError .InvalidFileName)) := by
  have hb8 : (beBytes 8 name.length).length = 8 := beBytes_length 8 _
  have hcs' : cs.flatten = beBytes 8 name.length ++ (name ++ content) := by
    rw [hcs, List.append_assoc]
  have hflat : cs.flatten.length = 8 + (name.length + content.length) := by
    rw [hcs']
    simp [hb8]
  obtain ⟨l1, r1, he1, hr1⟩ := readExact_some 8 cs [] (by simp [hflat])
  simp only [List.nil_append] at he1 hr1
  rw [hcs', List.take_left' hb8] at he1
  rw [hcs', List.drop_left' hb8] at hr1
  have hdec : beDecode (beBytes 8 name.length) = name.length := by
    rw [beDecode_beBytes]
    exact Nat.mod_eq_of_lt (by norm_num at hlen ⊢; exact hlen)
  have hlen1 : name.length ≤ l1.length + r1.flatten.length := by
    have := congrArg List.length hr1
    simp only [List.length_append] at this
    omega
  obtain ⟨l2, r2, he2, hr2⟩ := readExact_some name.length r1 l1 hlen1
  rw [hr1, List.take_left] at he2
  rw [hr1, List.drop_left] at hr2
  refine ⟨replayChunk l2 r2, ?_, ?_⟩
  · rw [replayChunk_flatten, hr2]
  · simp only [GoogleCloudStorageModel.read_chunks, he1, hdec, he2]

theorem read_bytes_of_envelope (name content : List Nat) (hlen : name.length < 2 ^ 64) :
    LocalFilesystemModel.read_bytes (beBytes 8 name.length ++ name ++ content) =
      (if utf8Valid name then .ok (name, content.length, content)
       else .error (.FileCorruptedError .InvalidFileName)) := by
  have hb8 : (beBytes 8 name.length).length = 8 := beBytes_length 8 _
  have hassoc : beBytes 8 name.length ++ name ++ content
      = beBytes 8 name.length ++ (name ++ content) := List.append_assoc _ _ _
  have hflat : (beBytes 8 name.length ++ name ++ content).length
      = 8 + (name.length + content.length) := by
    rw [hassoc]
    simp [hb8]
  have hdec : beDecode (beBytes 8 name.length) = name.length := by
    rw [beDecode_beBytes]
    exact Nat.mod_eq_of_lt (by norm_num at hlen ⊢; exact hlen)
  rw [hassoc]
  unfold LocalFilesystemModel.read_bytes
  rw [List.take_left' hb8, List.drop_left' hb8, hdec, List.take_left, List.drop_left]
  rw [if_pos (by rw [hassoc] at hflat; omega), if_pos (by simp)]
  have hsub : (beBytes 8 name.length ++ (name ++ content)).length - 8 - name.length
      = content.length := by
    rw [hassoc] at hflat
    omega
  rw [hsub]

/-! ## Claim C1 -/

/-- Claim C1: for every valid-UTF-8 filename of byte length below `2^64`
and every content chunk sequence, `write_file` followed by `read_file` of
the returned identifier yields exactly the original filename and the
original content bytes in order — for the local backend via the stored
file, and for the streaming decoder of `GoogleCloudStorageModel::read_file`
however the encoded bytes arrive split into chunks, with over-read header
surplus replayed at the head of the returned content stream. -/
theorem write_read_roundtrip (fs : Store) (id : Nat) (name : List Nat)
    (chunks cs : List (List Nat))
    (hval : utf8Valid name = true) (hlen : name.length < 2 ^ 64)
    (hcs : cs.flatten = beBytes 8 name.length ++ name ++ chunks.flatten) :
    (LocalFilesystemModel.write_file fs id name chunks).2 = id
    ∧ LocalFilesystemModel.read_file
        (LocalFilesystemModel.write_file fs id name chunks).1 id
        = .ok (name, chunks.flatten.length, chunks.flatten)
    ∧ ∃ out, GoogleCloudStorageModel.read_chunks cs = .ok (name, out)
        ∧ out.flatten = chunks.flatten := by
  refine ⟨rfl, ?_, ?_⟩
  · have hlook : (LocalFilesystemModel.write_file fs id name chunks).1 (uuidText id)
        = some (LocalFilesystemModel.file_bytes name chunks) := by
      simp [LocalFilesystemModel.write_file, Store.insert]
    unfold LocalFilesystemModel.read_file
    rw [hlook]
    show LocalFilesystemModel.read_bytes (LocalFilesystemModel.file_bytes name chunks) = _
    rw [file_bytes_eq, read_bytes_of_envelope name chunks.flatten hlen, if_pos hval]
  · obtain ⟨out, ho, he⟩ := read_chunks_of_envelope name chunks.flatten cs hlen hcs
    exact ⟨out, by rw [he, if_pos hval], ho⟩

/-- Concrete instance of `write_read_roundtrip`: filename "hi", content
`[1, 2, 3]` arriving as chunks `[1]`, `[2, 3]`, and the re-download split
so that chunk boundaries straddle both the length prefix and the
filename. -/
theorem write_read_roundtrip_witness :
    (LocalFilesystemModel.write_file Store.empty 0 [104, 105] [[1], [2, 3]]).2 = 0
    ∧ LocalFilesystemModel.read_file
        (LocalFilesystemModel.write_file Store.empty 0 [104, 105] [[1], [2, 3]]).1 0
        = .ok ([104, 105], ([[1], [2, 3]] : List (List Nat)).flatten.length,
            ([[1], [2, 3]] : List (List Nat)).flatten)
    ∧ ∃ out, GoogleCloudStorageModel.read_chunks
          [[0, 0, 0], [0, 0, 0, 0, 2, 104], [105, 1, 2], [3]]
        = .ok ([104, 105], out)
        ∧ out.flatten = ([[1], [2, 3]] : List (List Nat)).flatten :=
  write_read_roundtrip Store.empty 0 [104, 105] [[1], [2, 3]]
    [[0, 0, 0], [0, 0, 0, 0, 2, 104], [105, 1, 2], [3]]
    (by decide) (by decide) (by decide)

/-! ## Claim C3 -/

/-- Claim C3: `write_file` emits exactly an 8-byte big-endian integer equal
to the filename's byte length, then the filename bytes, then every chunk of
the content stream unchanged and in order: the cloud backend's stream
flattens to the envelope with the content chunks passed through untouched,
and the local backend's file holds the same byte sequence. -/
theorem write_file_layout (name : List Nat) (content : List (List Nat))
    (hlen : name.length < 2 ^ 64) :
    (GoogleCloudStorageModel.write_stream name content).flatten
        = beBytes 8 name.length ++ name ++ content.flatten
    ∧ (GoogleCloudStorageModel.write_stream name content).drop 2 = content
    ∧ LocalFilesystemModel.file_bytes name content
        = beBytes 8 name.length ++ name ++ content.flatten
    ∧ (beBytes 8 name.length).length = 8
    ∧ beDecode (beBytes 8 name.length) = name.length := by
  refine ⟨?_, rfl, file_bytes_eq name content, beBytes_length 8 _, ?_⟩
  · simp [GoogleCloudStorageModel.write_stream, List.append_assoc]
  · rw [beDecode_beBytes]
    exact Nat.mod_eq_of_lt (by norm_num at hlen ⊢; exact hlen)

/-- Concrete instance of `write_file_layout` for filename "h" and a
one-chunk content. -/
theorem write_file_layout_witness :
    (GoogleCloudStorageModel.write_stream [104] [[7, 8]]).flatten
        = beBytes 8 [104].length ++ [104] ++ ([[7, 8]] : List (List Nat)).flatten
    ∧ (GoogleCloudStorageModel.write_stream [104] [[7, 8]]).drop 2 = [[7, 8]]
    ∧ LocalFilesystemModel.file_bytes [104] [[7, 8]]
        = beBytes 8 [104].length ++ [104] ++ ([[7, 8]] : List (List Nat)).flatten
    ∧ (beBytes 8 [104].length).length = 8
    ∧ beDecode (beBytes 8 [104].length) = [104].length :=
  write_file_layout [104] [[7, 8]] (by decide)

/-! ## Claim C2 -/

/-- Claim C2: `upload_handler` rejects with `TooLarge` carrying the
declared and maximum sizes, mapped to HTTP 413, precisely when the declared
size strictly exceeds the configured maximum; the rejection is independent
of the backend service (no storage I/O is attempted), and a declared size
within the limit is passed through to the backend unchanged. The
hypothesis that the service itself never produces a `TooLarge` error holds
for both `Service` implementations of `src/service.rs`, whose only failure
is `PithosError::Access`. -/
theorem upload_handler_size_enforcement (max_upload_size file_size : Nat)
    (service : Nat → Except PithosError UploadHandle)
    (hsvc : ∀ g m, service file_size ≠ .error (.TooLarge g m)) :
    (upload_handler max_upload_size file_size service
        = .error (.TooLarge file_size max_upload_size)
      ↔ max_upload_size < file_size)
    ∧ (PithosError.TooLarge file_size max_upload_size).status_code = 413
    ∧ (max_upload_size < file_size → ∀ other : Nat → Except PithosError UploadHandle,
        upload_handler max_upload_size file_size other
          = .error (.TooLarge file_size max_upload_size))
    ∧ (file_size ≤ max_upload_size →
        upload_handler max_upload_size file_size service
          = match service file_size with
            | .error e => .error e
            | .ok handle => .ok (201, handle)) := by
  refine ⟨⟨?_, ?_⟩, rfl, ?_, ?_⟩
  · intro h
    by_contra hns
    rw [upload_handler, if_neg hns] at h
    cases hval : service file_size with
    | error e =>
      rw [hval] at h
      cases h
      exact hsvc file_size max_upload_size hval
    | ok handle => rw [hval] at h; cases h
  · intro h
    rw [upload_handler, if_pos h]
  · intro h other
    rw [upload_handler, if_pos h]
  · intro h
    rw [upload_handler, if_neg (by omega)]

/-- Concrete instance of `upload_handler_size_enforcement`: maximum 10,
declared 11, a backend that would accept anything. -/
theorem upload_handler_size_enforcement_witness :
    (upload_handler 10 11 (fun _ => .ok ⟨"u", 0⟩)
        = .error (.TooLarge 11 10) ↔ 10 < 11)
    ∧ (PithosError.TooLarge 11 10).status_code = 413
    ∧ (10 < 11 → ∀ other : Nat → Except PithosError UploadHandle,
        upload_handler 10 11 other = .error (.TooLarge 11 10))
    ∧ (11 ≤ 10 →
        upload_handler 10 11 (fun _ => .ok ⟨"u", 0⟩)
          = match (fun _ => .ok ⟨"u", 0⟩ : Nat → Except PithosError UploadHandle) 11 with
            | .error e => .error e
            | .ok handle => .ok (201, handle)) :=
  upload_handler_size_enforcement 10 11 (fun _ => .ok ⟨"u", 0⟩)
    (fun g m h => by cases h)

/-! ## Claim C4 -/

/-- Claim C4 counterexample: a stored object declaring a 5-byte filename
but ending right after the length prefix. `read_file` surfaces the
premature end of stream as `FileSystemError` (HTTP 500) — the
`From<io::Error>` conversion sends `UnexpectedEof` to the file-system
kind — not as `ContentReadError` (HTTP 400) as the claim states. -/
theorem truncated_read_is_not_content_read :
    GoogleCloudStorageModel.read_chunks [[0, 0, 0, 0, 0, 0, 0, 5]]
        = .error (.FileSystemError .UnexpectedEof)
    ∧ LocalFilesystemModel.read_bytes [0, 0, 0, 0, 0, 0, 0, 5]
        = .error (.FileSystemError .UnexpectedEof)
    ∧ (PilviError.FileSystemError .UnexpectedEof).status_code = 500
    ∧ PilviError.FileSystemError .UnexpectedEof ≠ PilviError.ContentReadError
    ∧ (PilviError.FileSystemError .UnexpectedEof).status_code ≠ 400 := by
  refine ⟨rfl, rfl, rfl, by decide, by decide⟩

/-- Claim C4 as amended: for every stored object whose byte stream ends
before `8 + N` bytes have been delivered (`N` the decoded 8-byte length
prefix), `read_file` — on both backends — returns the file-system error
kind (`FileSystemError`, from the `UnexpectedEof` `io::Error` of
`read_exact`), which maps to HTTP 500, not success and not another error
kind. -/
theorem truncated_read_error (cs : List (List Nat)) (file : List Nat)
    (hc : cs.flatten.length < 8 + beDecode (cs.flatten.take 8))
    (hf : file.length < 8 + beDecode (file.take 8)) :
    GoogleCloudStorageModel.read_chunks cs
        = .error (.FileSystemError .UnexpectedEof)
    ∧ LocalFilesystemModel.read_bytes file
        = .error (.FileSystemError .UnexpectedEof)
    ∧ (PilviError.FileSystemError .UnexpectedEof).status_code = 500 := by
  refine ⟨?_, ?_, rfl⟩
  · by_cases h8 : 8 ≤ cs.flatten.length
    · obtain ⟨l, r, he, hr⟩ := readExact_some 8 cs []
        (by simp only [List.length_nil, Nat.zero_add]; exact h8)
      simp only [List.nil_append] at he hr
      have hlen : l.length + r.flatten.length < beDecode (cs.flatten.take 8) := by
        have := congrArg List.length hr
        simp only [List.length_append, List.length_drop] at this
        omega
      have hnone := readExact_none (beDecode (cs.flatten.take 8)) r l hlen
      simp only [GoogleCloudStorageModel.read_chunks, he, hnone]
      rfl
    · have hnone := readExact_none 8 cs []
        (by simp only [List.length_nil, Nat.zero_add]; omega)
      simp only [GoogleCloudStorageModel.read_chunks, hnone]
      rfl
  · unfold LocalFilesystemModel.read_bytes
    by_cases h8 : 8 ≤ file.length
    · rw [if_pos h8, if_neg (by simp only [List.length_drop]; omega)]
      rfl
    · rw [if_neg h8]
      rfl

/-- Concrete instance of `truncated_read_error` at the truncated stream of
the counterexample. -/
theorem truncated_read_error_witness :
    GoogleCloudStorageModel.read_chunks [[0, 0, 0, 0, 0, 5], [0, 0]]
        = .error (.FileSystemError .UnexpectedEof)
    ∧ LocalFilesystemModel.read_bytes [0, 0, 0, 0, 0, 0, 0, 9, 104]
        = .error (.FileSystemError .UnexpectedEof)
    ∧ (PilviError.FileSystemError .UnexpectedEof).status_code = 500 :=
  truncated_read_error [[0, 0, 0, 0, 0, 5], [0, 0]] [0, 0, 0, 0, 0, 0, 0, 9, 104]
    (by decide) (by decide)

/-! ## Claim C5 -/

/-- Claim C5: for every stored object whose `N` filename bytes are not
valid UTF-8, `read_file` returns the file-corrupted error kind
(`FileCorruptedError(InvalidFileName)`, via `From<FromUtf8Error>`), which
maps to HTTP 500 — on both backends, however the bytes are chunked. -/
theorem corrupt_name_read (name content : List Nat) (cs : List (List Nat))
    (hval : utf8Valid name = false) (hlen : name.length < 2 ^ 64)
    (hcs : cs.flatten = beBytes 8 name.length ++ name ++ content) :
    GoogleCloudStorageModel.read_chunks cs
        = .error (.FileCorruptedError .InvalidFileName)
    ∧ LocalFilesystemModel.read_bytes (beBytes 8 name.length ++ name ++ content)
        = .error (.FileCorruptedError .InvalidFileName)
    ∧ (PilviError.FileCorruptedError .InvalidFileName).status_code = 500 := by
  obtain ⟨out, ho, he⟩ := read_chunks_of_envelope name content cs hlen hcs
  refine ⟨?_, ?_, rfl⟩
  · rw [he, if_neg (by simp [hval])]
  · rw [read_bytes_of_envelope name content hlen, if_neg (by simp [hval])]

/-- Concrete instance of `corrupt_name_read`: a one-byte filename `0xFF`,
which no UTF-8 string contains. -/
theorem corrupt_name_read_witness :
    GoogleCloudStorageModel.read_chunks [[0, 0, 0, 0, 0, 0, 0, 1, 255]]
        = .error (.FileCorruptedError .InvalidFileName)
    ∧ LocalFilesystemModel.read_bytes (beBytes 8 [255].length ++ [255] ++ [])
        = .error (.FileCorruptedError .InvalidFileName)
    ∧ (PilviError.FileCorruptedError .InvalidFileName).status_code = 500 :=
  corrupt_name_read [255] [] [[0, 0, 0, 0, 0, 0, 0, 1, 255]]
    (by decide) (by decide) (by decide)

/-! ## Claim C7 -/

/-- Claim C7 counterexample: a download of a missing identifier through
`GoogleCloudStorageModel::read_file` does not return the not-found kind.
The remote `download_streamed` call for an absent object either fails (a
`cloud_storage::Error`, which `From<cloud_storage::Error>` maps to
`FileSystemError`) or yields an empty stream (whose premature end is an
`UnexpectedEof`, also `FileSystemError`); either way the status is 500,
never 404. -/
theorem gcs_missing_object_is_not_notfound :
    GoogleCloudStorageModel.read_file (.error .mk)
        = .error (.FileSystemError .Other)
    ∧ GoogleCloudStorageModel.read_file (.ok [])
        = .error (.FileSystemError .UnexpectedEof)
    ∧ (PilviError.FileSystemError .Other).status_code = 500
    ∧ (PilviError.FileSystemError .Other).status_code ≠ 404
    ∧ (PilviError.FileSystemError .UnexpectedEof).status_code ≠ 404 :=
  ⟨rfl, rfl, rfl, by decide, by decide⟩

/-- Claim C7 as amended: `LocalFilesystemModel::read_file` and
`signed_download_handler` return the not-found kind (HTTP 404) exactly for
a missing identifier, and the file-system/server kind (HTTP 500) for every
other I/O failure, never conflating the two; `GoogleCloudStorageModel::read_file`,
by contrast, maps every download failure — a missing remote object
included — to `FileSystemError` (HTTP 500). -/
theorem notfound_vs_io_failure (fs : Store) (id : Nat) (k : IoErrorKind)
    (hmiss : fs (uuidText id) = none) (hk : k ≠ .NotFound) :
    LocalFilesystemModel.read_file fs id = .error (.NoSuchFileError .NotFound)
    ∧ (PilviError.NoSuchFileError .NotFound).status_code = 404
    ∧ ioErrorToPilvi k = .FileSystemError k
    ∧ (PilviError.FileSystemError k).status_code = 500
    ∧ GoogleCloudStorageModel.read_file (.error .mk) = .error (.FileSystemError .Other)
    ∧ (∀ (mac : List Char → List (String × String) → Nat → String) (now : Nat)
        (req : SignedRequest) (open_file : List Char → Except IoErrorKind (List Nat)),
        verifySigned mac now req = true →
        open_file (uuidText id) = .error IoErrorKind.NotFound →
        signed_download_handler mac now req open_file id = .handled (.error .NoSuchFile))
    ∧ (∀ (mac : List Char → List (String × String) → Nat → String) (now : Nat)
        (req : SignedRequest) (open_file : List Char → Except IoErrorKind (List Nat)),
        verifySigned mac now req = true →
        open_file (uuidText id) = .error k →
        signed_download_handler mac now req open_file id = .handled (.error .ServerError))
    ∧ PithosError.NoSuchFile.status_code = 404
    ∧ PithosError.ServerError.status_code = 500 := by
  refine ⟨?_, rfl, ?_, rfl, rfl, ?_, ?_, rfl, rfl⟩
  · unfold LocalFilesystemModel.read_file
    rw [hmiss]
    rfl
  · cases k with
    | NotFound => exact absurd rfl hk
    | UnexpectedEof => rfl
    | AlreadyExists => rfl
    | Other => rfl
  · intro mac now req open_file hv ho
    unfold signed_download_handler
    rw [if_pos hv, ho]
    rfl
  · intro mac now req open_file hv ho
    unfold signed_download_handler
    rw [if_pos hv, ho]
    cases k with
    | NotFound => exact absurd rfl hk
    | UnexpectedEof => rfl
    | AlreadyExists => rfl
    | Other => rfl

/-- Concrete instance of `notfound_vs_io_failure`: the empty store has no
file for identifier 0, and an `AlreadyExists` failure maps to the 500
kind. -/
theorem notfound_vs_io_failure_witness :
    LocalFilesystemModel.read_file Store.empty 0 = .error (.NoSuchFileError .NotFound)
    ∧ ioErrorToPilvi .AlreadyExists = .FileSystemError .AlreadyExists := by
  obtain ⟨h1, _, h3, _⟩ := notfound_vs_io_failure Store.empty 0 .AlreadyExists rfl (by decide)
  exact ⟨h1, h3⟩

/-! ## Claim C8 -/

/-- Claim C8: the bodies of the signed upload (PUT) and signed download
(GET) handlers run only when signature verification succeeds. A request
whose signature differs in any way from the code recomputed over the path,
remaining query parameters and expiry, or whose embedded expiry has
passed, or whose signature or expiry parameter is missing or malformed,
fails verification; the handlers then return the extractor's rejection,
the store is untouched and no file is opened. The verifier itself is
modelled from the spec (§4.5), the `axum_signed_urls` crate not being part
of this repository. -/
theorem signed_gate (mac : List Char → List (String × String) → Nat → String)
    (now : Nat) (req : SignedRequest) (fs : Store) (uuid : Nat)
    (body : List (List Nat))
    (open_file : List Char → Except IoErrorKind (List Nat)) :
    (verifySigned mac now req = false →
      signed_upload_handler mac now req fs uuid body = (.rejected, fs)
      ∧ signed_download_handler mac now req open_file uuid = .rejected)
    ∧ (∀ s e, req.signature = some s → req.expiry = some e →
        s ≠ mac req.path req.params e → verifySigned mac now req = false)
    ∧ (∀ s e, req.signature = some s → req.expiry = some e →
        e < now → verifySigned mac now req = false)
    ∧ (req.signature = none → verifySigned mac now req = false)
    ∧ (req.expiry = none → verifySigned mac now req = false) := by
  refine ⟨?_, ?_, ?_, ?_, ?_⟩
  · intro hv
    constructor
    · unfold signed_upload_handler
      rw [if_neg (by simp [hv])]
    · unfold signed_download_handler
      rw [if_neg (by simp [hv])]
  · intro s e hs he hne
    unfold verifySigned
    rw [hs, he]
    show (s == mac req.path req.params e && decide (now ≤ e)) = false
    have hb : (s == mac req.path req.params e) = false := beq_eq_false_iff_ne.mpr hne
    rw [hb, Bool.false_and]
  · intro s e hs he hlt
    unfold verifySigned
    rw [hs, he]
    show (s == mac req.path req.params e && decide (now ≤ e)) = false
    have hb : decide (now ≤ e) = false := decide_eq_false (by omega)
    rw [hb, Bool.and_false]
  · intro hs
    unfold verifySigned
    rw [hs]
  · intro he
    unfold verifySigned
    rw [he]
    cases req.signature <;> rfl

/-- Concrete instance of `signed_gate`: the recomputed code is `"s"` but
the request carries `"t"`, so both handlers reject and the store is
untouched. -/
theorem signed_gate_witness :
    signed_upload_handler (fun _ _ _ => "s") 0
        ⟨"/p".data, [], some "t", some 10⟩ Store.empty 0 [[1]]
      = (.rejected, Store.empty)
    ∧ signed_download_handler (fun _ _ _ => "s") 0
        ⟨"/p".data, [], some "t", some 10⟩ (fun _ => .error .NotFound) 0
      = .rejected := by
  obtain ⟨h1, _, _, _, _⟩ := signed_gate (fun _ _ _ => "s") 0
    ⟨"/p".data, [], some "t", some 10⟩ Store.empty 0 [[1]] (fun _ => .error .NotFound)
  exact h1 (by decide)

/-! ## Claim C10 -/

/-- Claim C10: `GoogleCloudStorage::request_download_url` produces the same
download URL whatever the `type_hint` and `ext_hint` arguments are — both
are the ignored `_` parameters of the Rust method, so the signed URL it
requests from the client is hint-independent. -/
theorem gcs_download_url_ignores_hints
    (signer : String → List Char → SignedURLOptions → Except SignedURLError String)
    (bucket : String) (type_hint : Option String) (ext_hint : Option (List Char))
    (id : Nat) :
    GoogleCloudStorage.request_download_url signer bucket type_hint ext_hint id
      = GoogleCloudStorage.request_download_url signer bucket none none id := rfl

/-! ## Identifier text form: decodability and injectivity -/

theorem hexVal_hexDigit (d : Nat) (h : d < 16) : hexVal (hexDigit d) = d := by
  interval_cases d <;> rfl

theorem hexDigit_ne_dash (d : Nat) (h : d < 16) : hexDigit d ≠ '-' := by
  interval_cases d <;> decide

theorem hexDecode_foldl (l : Nat) : ∀ (n a : Nat),
    (hexPad l n).foldl (fun acc c => acc * 16 + hexVal c) a = a * 16 ^ l + n % 16 ^ l := by
  induction l with
  | zero => intro n a; simp [hexPad, Nat.mod_one]
  | succ l ih =>
    intro n a
    have h : n % 16 ^ (l + 1) = n % 16 + 16 * (n / 16 % 16 ^ l) := by
      rw [pow_succ, mul_comm]
      exact Nat.mod_mul
    simp only [hexPad, List.foldl_append, ih (n / 16) a, List.foldl_cons, List.foldl_nil]
    rw [hexVal_hexDigit (n % 16) (Nat.mod_lt n (by norm_num)), h, pow_succ]
    ring

theorem mem_hexPad_ne_dash (l : Nat) : ∀ (n : Nat) (c : Char), c ∈ hexPad l n → c ≠ '-' := by
  induction l with
  | zero => intro n c hc; simp [hexPad] at hc
  | succ l ih =>
    intro n c hc
    simp only [hexPad, List.mem_append, List.mem_singleton] at hc
    rcases hc with hc | hc
    · exact ih (n / 16) c hc
    · rw [hc]
      exact hexDigit_ne_dash (n % 16) (Nat.mod_lt n (by norm_num))

theorem filter_uuidText (n : Nat) :
    (uuidText n).filter (fun c => c ≠ '-') = hexPad 32 (n % 2 ^ 128) := by
  unfold uuidText
  have hall : ∀ c ∈ hexPad 32 (n % 2 ^ 128), (fun c => decide (c ≠ '-')) c = true := by
    intro c hc
    simp [mem_hexPad_ne_dash 32 (n % 2 ^ 128) c hc]
  have hseg : ∀ s : List Char, (∀ c ∈ s, c ∈ hexPad 32 (n % 2 ^ 128)) →
      s.filter (fun c => c ≠ '-') = s := by
    intro s hs
    exact List.filter_eq_self.mpr (fun c hc => hall c (hs c hc))
  simp only [List.filter_append, List.filter_cons]
  simp only [if_neg (show ¬ (decide ('-' ≠ '-') = true) from by decide)]
  rw [hseg _ (fun c hc => List.mem_of_mem_take hc),
    hseg _ (fun c hc => List.mem_of_mem_drop (List.mem_of_mem_take hc)),
    hseg _ (fun c hc => List.mem_of_mem_drop (List.mem_of_mem_take hc)),
    hseg _ (fun c hc => List.mem_of_mem_drop (List.mem_of_mem_take hc)),
    hseg _ (fun c hc => List.mem_of_mem_drop hc)]
  have h20 : ((hexPad 32 (n % 2 ^ 128)).drop 16).take 4 ++ (hexPad 32 (n % 2 ^ 128)).drop 20
      = (hexPad 32 (n % 2 ^ 128)).drop 16 := by
    rw [show (hexPad 32 (n % 2 ^ 128)).drop 20 = ((hexPad 32 (n % 2 ^ 128)).drop 16).drop 4
      from by rw [List.drop_drop]]
    exact List.take_append_drop 4 _
  have h16 : ((hexPad 32 (n % 2 ^ 128)).drop 12).take 4 ++ (hexPad 32 (n % 2 ^ 128)).drop 16
      = (hexPad 32 (n % 2 ^ 128)).drop 12 := by
    rw [show (hexPad 32 (n % 2 ^ 128)).drop 16 = ((hexPad 32 (n % 2 ^ 128)).drop 12).drop 4
      from by rw [List.drop_drop]]
    exact List.take_append_drop 4 _
  have h12 : ((hexPad 32 (n % 2 ^ 128)).drop 8).take 4 ++ (hexPad 32 (n % 2 ^ 128)).drop 12
      = (hexPad 32 (n % 2 ^ 128)).drop 8 := by
    rw [show (hexPad 32 (n % 2 ^ 128)).drop 12 = ((hexPad 32 (n % 2 ^ 128)).drop 8).drop 4
      from by rw [List.drop_drop]]
    exact List.take_append_drop 4 _
  rw [List.append_assoc, List.append_assoc, List.append_assoc, h20, h16, h12]
  exact List.take_append_drop 8 _

theorem uuidOfText_uuidText (n : Nat) : uuidOfText (uuidText n) = n % 2 ^ 128 := by
  unfold uuidOfText hexDecode
  rw [filter_uuidText, hexDecode_foldl 32 (n % 2 ^ 128) 0]
  have h1632 : (16 : Nat) ^ 32 = 2 ^ 128 := by norm_num
  rw [h1632]
  simp only [Nat.zero_mul, Nat.zero_add]
  exact Nat.mod_mod_of_dvd n dvd_rfl

theorem uuidText_inj (a b : Nat) (ha : a < 2 ^ 128) (hb : b < 2 ^ 128)
    (h : uuidText a = uuidText b) : a = b := by
  have := congrArg uuidOfText h
  rw [uuidOfText_uuidText, uuidOfText_uuidText,
    Nat.mod_eq_of_lt ha, Nat.mod_eq_of_lt hb] at this
  exact this

/-! ## Claim C9 -/

theorem isFramedEnvelope_envelope (name content : List Nat)
    (hval : utf8Valid name = true) (hlen : name.length < 2 ^ 64) :
    isFramedEnvelope (beBytes 8 name.length ++ name ++ content) = true := by
  have hb8 : (beBytes 8 name.length).length = 8 := beBytes_length 8 _
  have hassoc : beBytes 8 name.length ++ name ++ content
      = beBytes 8 name.length ++ (name ++ content) := List.append_assoc _ _ _
  have hdec : beDecode (beBytes 8 name.length) = name.length := by
    rw [beDecode_beBytes]
    exact Nat.mod_eq_of_lt (by norm_num at hlen ⊢; exact hlen)
  have hlen' : (beBytes 8 name.length ++ (name ++ content)).length
      = 8 + (name.length + content.length) := by simp [hb8]
  unfold isFramedEnvelope
  rw [hassoc, List.take_left' hb8, List.drop_left' hb8, hdec, List.take_left, hval, hlen']
  simp only [Bool.and_true, Bool.and_eq_true, decide_eq_true_eq]
  constructor <;> omega

/-- Claim C9 counterexample: a verified signed upload whose raw body is the
three bytes `"abc"` stores exactly those three bytes under the
identifier's canonical name — `signed_upload_handler` copies the request
body verbatim and adds no framing, so the stored file is not a Framed
Envelope (it is even shorter than the 8-byte length prefix). -/
theorem signed_upload_stores_raw_body :
    (signed_upload_handler (fun _ _ _ => "s") 0
        ⟨"/p".data, [], some "s", some 10⟩ Store.empty 7 [[97, 98], [99]]).2
        (uuidText 7) = some [97, 98, 99]
    ∧ (signed_upload_handler (fun _ _ _ => "s") 0
        ⟨"/p".data, [], some "s", some 10⟩ Store.empty 7 [[97, 98], [99]]).1
        = .handled (.ok 202)
    ∧ isFramedEnvelope [97, 98, 99] = false := by
  refine ⟨rfl, rfl, by decide⟩

/-- Claim C9 as amended: after `LocalFilesystemModel::write_file` the flat
storage directory holds, under the identifier's canonical text form,
exactly the Framed Envelope (and no other name is touched, and distinct
128-bit identifiers have distinct canonical names); after a verified
`signed_upload_handler` the directory holds, under the identifier's
canonical text form, exactly the raw request body — which is a Framed
Envelope only if the client uploaded one. -/
theorem Store.insert_same (fs : Store) (k : List Char) (v : List Nat) :
    Store.insert fs k v k = some v := by
  unfold Store.insert
  rw [if_pos rfl]

theorem Store.insert_other (fs : Store) (k k' : List Char) (v : List Nat)
    (h : k' ≠ k) : Store.insert fs k v k' = fs k' := by
  unfold Store.insert
  rw [if_neg h]

theorem storage_layout (fs : Store) (id : Nat) (name : List Nat)
    (content body : List (List Nat))
    (mac : List Char → List (String × String) → Nat → String)
    (now : Nat) (req : SignedRequest)
    (hval : utf8Valid name = true) (hlen : name.length < 2 ^ 64)
    (hver : verifySigned mac now req = true) :
    (LocalFilesystemModel.write_file fs id name content).1 (uuidText id)
        = some (beBytes 8 name.length ++ name ++ content.flatten)
    ∧ (∀ k, k ≠ uuidText id →
        (LocalFilesystemModel.write_file fs id name content).1 k = fs k)
    ∧ isFramedEnvelope (beBytes 8 name.length ++ name ++ content.flatten) = true
    ∧ (∀ a b, a < 2 ^ 128 → b < 2 ^ 128 → uuidText a = uuidText b → a = b)
    ∧ (signed_upload_handler mac now req fs id body).2 (uuidText id) = some body.flatten
    ∧ (∀ k, k ≠ uuidText id →
        (signed_upload_handler mac now req fs id body).2 k = fs k) := by
  have hw1 : (LocalFilesystemModel.write_file fs id name content).1
      = fs.insert (uuidText id) (LocalFilesystemModel.file_bytes name content) := rfl
  have hsu : signed_upload_handler mac now req fs id body
      = (.handled (.ok 202), fs.insert (uuidText id) body.flatten) := by
    unfold signed_upload_handler
    rw [if_pos hver]
  have hsu2 : (signed_upload_handler mac now req fs id body).2
      = fs.insert (uuidText id) body.flatten := by
    rw [hsu]
  refine ⟨?_, ?_, isFramedEnvelope_envelope name content.flatten hval hlen,
    uuidText_inj, ?_, ?_⟩
  · rw [hw1, Store.insert_same, file_bytes_eq]
  · intro k hk
    rw [hw1]
    exact Store.insert_other fs _ k _ hk
  · rw [hsu2, Store.insert_same]
  · intro k hk
    rw [hsu2]
    exact Store.insert_other fs _ k _ hk

/-- Concrete instance of `storage_layout`: a local write of filename "h"
and a verified signed upload of body `[5, 6]` under identifier 3. -/
theorem storage_layout_witness :
    (LocalFilesystemModel.write_file Store.empty 3 [104] [[1]]).1 (uuidText 3)
        = some (beBytes 8 [104].length ++ [104] ++ ([[1]] : List (List Nat)).flatten)
    ∧ (signed_upload_handler (fun _ _ _ => "m") 2
        ⟨"/q".data, [], some "m", some 9⟩ Store.empty 3 [[5, 6]]).2 (uuidText 3)
        = some ([[5, 6]] : List (List Nat)).flatten := by
  obtain ⟨h1, _, _, _, h5, _⟩ := storage_layout Store.empty 3 [104] [[1]] [[5, 6]]
    (fun _ _ _ => "m") 2 ⟨"/q".data, [], some "m", some 9⟩ (by decide) (by decide) (by decide)
  exact ⟨h1, h5⟩

/-! ## Claim C6 -/

theorem extScan_letters (isAlnum : Char → Bool) (hdot : isAlnum '.' = false) :
    ∀ (g rest : List Char), (∀ c ∈ g, isAlnum c = true) →
    extScan isAlnum .WantLettersOrDot (g ++ rest)
      = extScan isAlnum .WantLettersOrDot rest := by
  intro g
  induction g with
  | nil => intro rest _; rfl
  | cons c g ih =>
    intro rest h
    have hc : isAlnum c = true := h c (by simp)
    have hcd : c ≠ '.' := fun he => by rw [he, hdot] at hc; cases hc
    show extScan isAlnum .WantLettersOrDot (c :: (g ++ rest)) = _
    simp only [extScan]
    rw [if_neg hcd, if_neg (fun hn => hn hc)]
    exact ih rest (fun x hx => h x (by simp [hx]))

theorem extScan_group (isAlnum : Char → Bool) (hdot : isAlnum '.' = false)
    (g rest : List Char) (hne : g ≠ []) (h : ∀ c ∈ g, isAlnum c = true) :
    extScan isAlnum .WantLetters (g ++ rest)
      = extScan isAlnum .WantLettersOrDot rest := by
  cases g with
  | nil => exact absurd rfl hne
  | cons c g =>
    have hc : isAlnum c = true := h c (by simp)
    have hcd : c ≠ '.' := fun he => by rw [he, hdot] at hc; cases hc
    show extScan isAlnum .WantLetters (c :: (g ++ rest)) = _
    simp only [extScan]
    rw [if_neg hcd, if_neg (fun hn => hn hc)]
    exact extScan_letters isAlnum hdot g rest (fun x hx => h x (by simp [hx]))

theorem extScan_groups (isAlnum : Char → Bool) (hdot : isAlnum '.' = false) :
    ∀ (gs : List (List Char)),
    (∀ g ∈ gs, g ≠ [] ∧ ∀ c ∈ g, isAlnum c = true) →
    extScan isAlnum .WantLettersOrDot ((gs.map (fun g => '.' :: g)).flatten)
      = .ok .WantLettersOrDot := by
  intro gs
  induction gs with
  | nil => intro _; rfl
  | cons g gs ih =>
    intro h
    obtain ⟨hne, hall⟩ := h g (by simp)
    show extScan isAlnum .WantLettersOrDot
        ('.' :: (g ++ (gs.map (fun g => '.' :: g)).flatten)) = _
    simp only [extScan]
    rw [if_pos trivial, extScan_group isAlnum hdot g _ hne hall]
    exact ih (fun g' hg' => h g' (by simp [hg']))

theorem extScan_accepts (isAlnum : Char → Bool) (hdot : isAlnum '.' = false)
    (gs : List (List Char)) (hne : gs ≠ [])
    (h : ∀ g ∈ gs, g ≠ [] ∧ ∀ c ∈ g, isAlnum c = true) :
    extScan isAlnum .WantDot ((gs.map (fun g => '.' :: g)).flatten)
      = .ok .WantLettersOrDot := by
  cases gs with
  | nil => exact absurd rfl hne
  | cons g gs =>
    obtain ⟨hgne, hall⟩ := h g (by simp)
    show extScan isAlnum .WantDot
        ('.' :: (g ++ (gs.map (fun g => '.' :: g)).flatten)) = _
    simp only [extScan]
    rw [if_neg (fun hn => hn rfl), extScan_group isAlnum hdot g _ hgne hall]
    exact extScan_groups isAlnum hdot gs (fun g' hg' => h g' (by simp [hg']))

theorem length_le_strByteLen (v : List Char) : v.length ≤ strByteLen v := by
  induction v with
  | nil => simp [strByteLen]
  | cons c v ih =>
    have h1 : 1 ≤ charUtf8Len c := by
      unfold charUtf8Len
      split
      · omega
      · split
        · omega
        · split <;> omega
    simp only [strByteLen, List.map_cons, List.sum_cons, List.length_cons] at ih ⊢
    omega

/-- Claim C6 counterexample: the 32-character input consisting of a dot,
thirty `'a'`s and the letter `'é'` satisfies the extension grammar (every
character after the dot is alphanumeric for Rust — `'é'` is Unicode
Alphabetic), yet `FileExt::from_str` rejects it as `TooLong(33)`: the
length guard compares `str::len()`, the UTF-8 byte count, and `'é'`
occupies two bytes. -/
theorem ext_32_char_grammar_input_rejected :
    ('.' :: List.replicate 30 'a' ++ ['é']).length = 32
    ∧ SatisfiesGrammar rustIsAlphanumLatin ('.' :: List.replicate 30 'a' ++ ['é'])
    ∧ rustIsAlphanumLatin 'é' = true
    ∧ fileExtFromStr rustIsAlphanumLatin ('.' :: List.replicate 30 'a' ++ ['é'])
        = .error (.TooLong 33) := by
  refine ⟨by decide,
    ⟨[List.replicate 30 'a' ++ ['é']], by decide, by decide, by decide⟩,
    by decide, by decide⟩

/-- Claim C6 as amended: `FileExt::from_str` accepts `".tar.gz"`; rejects
`"tar.gz"` with `DoesNotStartWithDot`, `"..gz"` with `ConsecutiveDots`,
`".gz."` with `EndsWithDot`, `""` with `EmptyExtension` — each violation
its own distinct variant; rejects every 33-character input with `TooLong`
(carrying the byte length); and accepts every input satisfying the grammar
whose UTF-8 byte length (`str::len()`, which the limit counts — not
characters) is at most 32. -/
theorem ext_grammar (isAlnum : Char → Bool) (v : List Char)
    (hdot : isAlnum '.' = false) :
    fileExtFromStr rustIsAlphanumAscii ".tar.gz".data = .ok ".tar.gz".data
    ∧ fileExtFromStr rustIsAlphanumAscii "tar.gz".data
        = .error (.DoesNotStartWithDot 't')
    ∧ fileExtFromStr rustIsAlphanumAscii "..gz".data = .error .ConsecutiveDots
    ∧ fileExtFromStr rustIsAlphanumAscii ".gz.".data = .error .EndsWithDot
    ∧ fileExtFromStr rustIsAlphanumAscii "".data = .error .EmptyExtension
    ∧ (v.length = 33 → fileExtFromStr isAlnum v = .error (.TooLong (strByteLen v)))
    ∧ (SatisfiesGrammar isAlnum v → strByteLen v ≤ MAX_EXTENSION_LENGTH →
        fileExtFromStr isAlnum v = .ok v) := by
  refine ⟨by decide, by decide, by decide, by decide, by decide, ?_, ?_⟩
  · intro h33
    have hb := length_le_strByteLen v
    unfold fileExtFromStr
    rw [if_pos (by unfold MAX_EXTENSION_LENGTH; omega)]
  · rintro ⟨gs, hne, hall, rfl⟩ hlen
    unfold fileExtFromStr
    rw [if_neg (Nat.not_lt.mpr hlen), extScan_accepts isAlnum hdot gs hne hall]

/-- Concrete instance of `ext_grammar`: 33 `'a'`s are too long, and
`".tar.gz"` is accepted. -/
theorem ext_grammar_witness :
    fileExtFromStr rustIsAlphanumAscii (List.replicate 33 'a') = .error (.TooLong 33)
    ∧ fileExtFromStr rustIsAlphanumAscii ".tar.gz".data = .ok ".tar.gz".data := by
  obtain ⟨h1, _, _, _, _, h6, _⟩ :=
    ext_grammar rustIsAlphanumAscii (List.replicate 33 'a') (by decide)
  have h := h6 (by decide)
  rw [show strByteLen (List.replicate 33 'a') = 33 from by decide] at h
  exact ⟨h, h1⟩
